import Mathlib

/-!  Shallow embedding of `literacy_score/grading_utils.py`: the word-level
text aligner (`compare_text`), the error classifier (`get_errors_dict`), the
word-length feature helper (`avg_length_of_words`), the string normalization
steps of `Dataset.preprocess_data`, and the frame effect of
`Dataset.preprocess_data` on the dataset's columns.

Python semantics modelled explicitly:
* machine strings are Lean `String`s; `word[0]` on diff operations is total
  here because operations always have the shape `tag ++ " " ++ word`;
* Python `int` index arithmetic (`i < n - 2`) is `Int` arithmetic;
* fallible operations (`IndexError` from `differ_list[-1]` on an empty list,
  `TypeError`/`ValueError` in the preprocessing applymaps) return
  `Option`/`Except`;
* floats only appear as exact averages of naturals, modelled by `ℚ`.
-/

namespace LiteracyScore

/-- Python `word[0]`: the first character of a string.  On the empty string
Lean's `String.front` returns the default character; the source never indexes
an empty operation because diff operations are `tag ++ " " ++ word`. -/
def strFront (s : String) : Char := s.front

/-- Python `str.split(sep)` for a one-character separator, on the character
list.  Like Python, the result is never empty: `"".split(" ") == [""]` and
`"a  b".split(" ") == ["a", "", "b"]`. -/
def splitSep (sep : Char) : List Char → List (List Char)
  | [] => [[]]
  | c :: cs =>
    if c = sep then [] :: splitSep sep cs
    else
      match splitSep sep cs with
      | [] => [[c]]
      | w :: ws => (c :: w) :: ws

/-- Python `str(s).split(sep)` producing strings. -/
def pySplit (s : String) (sep : Char) : List String :=
  (splitSep sep s.data).map String.mk

/-- Modelled from the spec: fuel-indexed longest-common-subsequence length.
`difflib` is external library code not under `src/`; spec section 4.2
describes the Aligner as an LCS-based word diff whose ties may be broken
arbitrarily but deterministically, and this is the tie-break oracle used by
`differCompareF`.  Each recursive call removes exactly one list element and
one unit of fuel, so fuel `a.length + b.length` (used by `lcsLen`) is always
sufficient. -/
def lcsLenF : Nat → List String → List String → Nat
  | 0, _, _ => 0
  | _ + 1, [], _ => 0
  | _ + 1, _ :: _, [] => 0
  | fuel + 1, x :: xs, y :: ys =>
    if x = y then lcsLenF fuel xs ys + 1
    else max (lcsLenF fuel xs (y :: ys)) (lcsLenF fuel (x :: xs) ys)

def lcsLen (a b : List String) : Nat := lcsLenF (a.length + b.length) a b

/-- One tagged diff operation, Python `"%s %s" % (tag, word)` as emitted by
`difflib.Differ`. -/
def tagOp (c : Char) (w : String) : String := String.mk (c :: ' ' :: w.data)

/-- Modelled from the spec: `difflib.Differ().compare` is external library
code not under `src/`.  Spec section 4.2: a deterministic LCS-based word
diff; tokens present in both sequences in matching relative order are tagged
`' '` (Match), tokens only in the second sequence `'+'` (Insert), tokens only
in the first `'-'` (Delete).  Ties prefer emitting the Delete first, matching
`difflib`'s plain replace order for equal-size blocks.  Fuel decreases by
exactly one per emitted operation, so `a.length + b.length` suffices. -/
def differCompareF : Nat → List String → List String → List String
  | 0, _, _ => []
  | _ + 1, [], [] => []
  | fuel + 1, x :: xs, [] => tagOp '-' x :: differCompareF fuel xs []
  | fuel + 1, [], y :: ys => tagOp '+' y :: differCompareF fuel [] ys
  | fuel + 1, x :: xs, y :: ys =>
    if x = y then tagOp ' ' x :: differCompareF fuel xs ys
    else if lcsLen (x :: xs) ys ≤ lcsLen xs (y :: ys) then
      tagOp '-' x :: differCompareF fuel xs (y :: ys)
    else tagOp '+' y :: differCompareF fuel (x :: xs) ys

def differCompare (a b : List String) : List String :=
  differCompareF (a.length + b.length) a b

/-- The end-trim loop of `compare_text`:
`while differ_list[-1][0] == to_be_removed and len(differ_list) >= 1: pop()`
running over the reversed list.  `none` models the `IndexError` raised when
the loop empties the list and the condition then evaluates
`differ_list[-1]` (the length test comes second in the source). -/
def popTrailingAux (c : Char) : List String → Option (List String)
  | [] => none
  | x :: rest => if strFront x = c then popTrailingAux c rest else some (x :: rest)

/-- Source `compare_text(string_a, string_b, split_car)` (grading_utils.py lines
69-81): split both strings, diff them, then if the last operation's tag is
not `' '` pop every trailing operation with that same tag.  `none` models an
uncaught `IndexError`. -/
def compare_textO (string_a string_b : String) (split_car : Char) : Option (List String) :=
  let differ_list := differCompare (pySplit string_a split_car) (pySplit string_b split_car)
  match differ_list.getLast? with
  | none => none
  | some lastOp =>
    let to_be_removed := strFront lastOp
    if to_be_removed = ' ' then some differ_list
    else (popTrailingAux to_be_removed differ_list.reverse).map List.reverse

/-- Python `s.replace(pat, rep)`: replace every (non-overlapping, leftmost)
occurrence of `pat`, scanning left to right.  Fuel-indexed so the recursion
is structural; every step consumes at least one character when `pat` is
nonempty (the call sites use the two-character tags `"+ "` and `"- "`), so
fuel `l.length` suffices. -/
def pyReplaceF (pat rep : List Char) : Nat → List Char → List Char
  | 0, l => l
  | _ + 1, [] => []
  | fuel + 1, c :: cs =>
    if pat.isPrefixOf (c :: cs) then rep ++ pyReplaceF pat rep fuel ((c :: cs).drop pat.length)
    else c :: pyReplaceF pat rep fuel cs

def pyReplace (s pat rep : String) : String :=
  String.mk (pyReplaceF pat.data rep.data s.data.length s.data)

/-- The lookahead `j = 1; while i + j < n and differ_list[i + j][0] == "?":
j += 1` of `get_errors_dict`, with fuel `n - (i + j)` making the recursion
structural; the fuel is positive exactly when `i + j < n`. -/
def findJGo (l : List String) (i : Nat) : Nat → Nat → Nat
  | 0, j => j
  | fuel + 1, j => if strFront (l.getD (i + j) "") = '?' then findJGo l i fuel (j + 1) else j

def findJ (l : List String) (n i : Nat) : Nat := findJGo l i (n - (i + 1)) 1

/-- The `errors_dict = {'prompt': [], 'transcript': []}` accumulator. -/
structure ErrorsDict where
  prompt : List String
  transcript : List String
deriving Repr, DecidableEq

/-- The loop state of `get_errors_dict`. -/
structure ErrState where
  counter : Nat
  add : Nat
  sub : Nat
  skip_next : Nat
  promptW : List String
  transcriptW : List String
deriving Repr, DecidableEq

/-- One iteration of `for i, word in enumerate(differ_list)` in
`get_errors_dict` (grading_utils.py lines 94-116).  Note: the `skip_next`
branch ends in `pass`, not `continue`, so after decrementing `skip_next`
execution falls through into the classification below — an operation that
was paired into a substitution is reprocessed at its own index.  Also the
`add`/`sub` counters are incremented before the pairing check, so a paired
operation is counted in them as well. -/
def errStep (l : List String) (n : Nat) (st0 : ErrState) (i : Nat) : ErrState :=
  let word := l.getD i ""
  let st := if 0 < st0.skip_next then { st0 with skip_next := st0.skip_next - 1 } else st0
  if strFront word = ' ' then { st with counter := st.counter + 1 }
  else if (i : Int) < (n : Int) - 2 then
    let st1 := if strFront word = '+' then { st with add := st.add + 1 }
      else if strFront word = '-' then { st with sub := st.sub + 1 } else st
    let j := findJ l n i
    let wj := l.getD (i + j) ""
    let plus_minus := strFront word == '+' && strFront wj == '-'
    let minus_plus := strFront word == '-' && strFront wj == '+'
    let st2 := { st1 with skip_next := if plus_minus || minus_plus then j else 0 }
    if plus_minus then
      { st2 with promptW := st2.promptW ++ [pyReplace word "+ " ""],
                 transcriptW := st2.transcriptW ++ [pyReplace wj "- " ""] }
    else if minus_plus then
      { st2 with promptW := st2.promptW ++ [pyReplace word "- " ""],
                 transcriptW := st2.transcriptW ++ [pyReplace wj "+ " ""] }
    else st2
  else st

/-- The tuple returned by `get_errors_dict`: `(counter, add, sub, replaced,
errors_dict)`, i.e. correct, added, removed, replaced word counts plus the
substitution word lists. -/
structure ErrResult where
  counter : Nat
  add : Nat
  sub : Nat
  replaced : Nat
  errors_dict : ErrorsDict
deriving Repr, DecidableEq

/-- Source `get_errors_dict(differ_list)` (grading_utils.py lines 84-118). -/
def get_errors_dict (differ_list : List String) : ErrResult :=
  let n := differ_list.length
  let st := (List.range n).foldl (errStep differ_list n) ⟨0, 0, 0, 0, [], []⟩
  ⟨st.counter, st.add, st.sub, st.promptW.length, ⟨st.promptW, st.transcriptW⟩⟩

/-- Specification-style companion definition (for the refinement claims about
the recorded substitution pairs): the pair recorded at loop index `i`, if
any.  It mirrors the branch structure of `errStep`: the word of the
operation at index `i` comes first (its tag stripped) and the word of the
looked-ahead operation at `i + j` comes second, regardless of which of the
two is the Insert and which the Delete. -/
def pairAt (l : List String) (n i : Nat) : Option (String × String) :=
  let word := l.getD i ""
  if strFront word = ' ' then none
  else if (i : Int) < (n : Int) - 2 then
    let j := findJ l n i
    let wj := l.getD (i + j) ""
    if strFront word == '+' && strFront wj == '-' then
      some (pyReplace word "+ " "", pyReplace wj "- " "")
    else if strFront word == '-' && strFront wj == '+' then
      some (pyReplace word "- " "", pyReplace wj "+ " "")
    else none
  else none

/-- All substitution pairs of a differ list, in recording order. -/
def substitutionPairsSpec (l : List String) : List (String × String) :=
  (List.range l.length).filterMap (pairAt l l.length)

/-- Source `avg_length_of_words(s, sep)` (grading_utils.py lines 59-66): Python
division of naturals modelled exactly in `ℚ`.  The `n == 0` guard returns
`0`; it is in fact dead because Python `split` never returns an empty
list. -/
def avg_length_of_words (s : String) (sep : Char) : ℚ :=
  let parts := pySplit s sep
  let n := parts.length
  if n = 0 then 0 else ((parts.map String.length).sum : ℚ) / (n : ℚ)

/-- Python `string.punctuation` (braces and backtick hex-escaped). -/
def punctuationChars : String := "!\"#$%&'()*+,-./:;<=>?@[\\]^_\x60\x7b|\x7d~"

/-- Python `s.translate(str.maketrans(string.punctuation, ' ' * len(...)))`:
replace every punctuation character by a space. -/
def pyTranslatePunct (s : String) : String :=
  String.mk (s.data.map (fun c => if punctuationChars.data.contains c then ' ' else c))

/-- Python `str.split()` with no separator: split on runs of whitespace,
discarding empty fields.  Accumulator-based so the recursion is
structural. -/
def splitWsGo : List Char → List Char → List (List Char)
  | run, [] => if run = [] then [] else [run.reverse]
  | run, c :: cs =>
    if c.isWhitespace then
      if run = [] then splitWsGo [] cs else run.reverse :: splitWsGo [] cs
    else splitWsGo (c :: run) cs

def pySplitWs (s : String) : List String := (splitWsGo [] s.data).map String.mk

/-- Source `remove_punctuation(s, translater)` from `Dataset.preprocess_data`
(grading_utils.py lines 187-189): translate punctuation to spaces, then
`" ".join(s.split())` collapses whitespace runs. -/
def remove_punctuation (s : String) : String :=
  String.intercalate " " (pySplitWs (pyTranslatePunct s))

/-- Modelled from the spec: the `num2words` library is external code not
under `src/`.  English number names, low words table. -/
def onesWords : List String :=
  ["zero", "one", "two", "three", "four", "five", "six", "seven", "eight",
   "nine", "ten", "eleven", "twelve", "thirteen", "fourteen", "fifteen",
   "sixteen", "seventeen", "eighteen", "nineteen"]

/-- Modelled from the spec: tens words of the `num2words` library. -/
def tensWords : List String :=
  ["twenty", "thirty", "forty", "fifty", "sixty", "seventy", "eighty", "ninety"]

/-- Modelled from the spec: `num2words(n)` for `n < 100`. -/
def num2wordsBelow100 (n : Nat) : String :=
  if n < 20 then onesWords.getD n ""
  else tensWords.getD (n / 10 - 2) ""
    ++ (if n % 10 = 0 then "" else "-" ++ onesWords.getD (n % 10) "")

/-- Modelled from the spec: `num2words(n)` for `n < 1000`. -/
def num2wordsBelow1000 (n : Nat) : String :=
  if n < 100 then num2wordsBelow100 n
  else onesWords.getD (n / 100) "" ++ " hundred"
    ++ (if n % 100 = 0 then "" else " and " ++ num2wordsBelow100 (n % 100))

/-- Modelled from the spec: English cardinal reading of the `num2words`
library, covering the numbers below one million that the claims
evaluate. -/
def num2wordsCardinal (n : Nat) : String :=
  if n < 1000 then num2wordsBelow1000 n
  else num2wordsBelow1000 (n / 1000) ++ " thousand"
    ++ (if n % 1000 = 0 then ""
        else if n % 1000 < 100 then " and " ++ num2wordsBelow100 (n % 1000)
        else ", " ++ num2wordsBelow1000 (n % 1000))

/-- Modelled from the spec: year-style reading, `num2words(n, to='year')`:
a 4-digit year is read as its two 2-digit halves. -/
def num2wordsYear (n : Nat) : String :=
  if n < 100 ∨ n % 1000 = 0 then num2wordsCardinal n
  else if n % 100 = 0 then num2wordsCardinal (n / 100) ++ " hundred"
  else if n % 100 < 10 then num2wordsCardinal (n / 100) ++ " oh-" ++ num2wordsCardinal (n % 100)
  else num2wordsCardinal (n / 100) ++ " " ++ num2wordsCardinal (n % 100)

/-- Numeric value of a digit string (`int(y.group())`). -/
def digitsToNat (s : String) : Nat :=
  s.data.foldl (fun acc c => acc * 10 + (c.toNat - 48)) 0

/-- Python `re.sub('\d+', f, s)`: replace each maximal digit run by `f` of it.
Accumulator-based so the recursion is structural. -/
def reSubDigitsGo (f : String → String) : List Char → List Char → List Char
  | run, [] => if run = [] then [] else (f (String.mk run.reverse)).data
  | run, c :: cs =>
    if c.isDigit then reSubDigitsGo f (c :: run) cs
    else if run = [] then c :: reSubDigitsGo f [] cs
    else (f (String.mk run.reverse)).data ++ c :: reSubDigitsGo f [] cs

def reSubDigits (f : String → String) (s : String) : String :=
  String.mk (reSubDigitsGo f [] s.data)

/-- Source `converter(s)` from `Dataset.preprocess_data` (grading_utils.py lines
178-181): note the year test is `len(s) == 4` on the WHOLE cell string, not
on the matched digit run. -/
def converter (s : String) : String :=
  if s.length = 4 then reSubDigits (fun y => num2wordsYear (digitsToNat y)) s
  else reSubDigits (fun y => num2wordsCardinal (digitsToNat y)) s

/-- Python `str.lower()` (ASCII inputs). -/
def pyLower (s : String) : String := String.mk (s.data.map Char.toLower)

/-- The per-cell string pipeline of `Dataset.preprocess_data` with
`asr_string_recomposition = False` (grading_utils.py lines 156-196):
lowercase, then number conversion, then the punctuation step.  Line 190
`df.applymap(lambda x: remove_punctuation(x, t))` never assigns its result,
which the dead `let` below mirrors: the returned cell is `s2`, untouched by
punctuation removal. -/
def preprocessCell (lowercase convert_num2words punctuation_free : Bool) (s : String) : String :=
  let s1 := if lowercase then pyLower s else s
  let s2 := if convert_num2words then converter s1 else s1
  let _ := if punctuation_free then remove_punctuation s2 else s2
  s2

/-- A dataframe cell: `none` models a missing value (`NaN`). -/
abbrev Cell := Option String

/-- Python `str(x)` on a cell: `NaN` prints as `"nan"`. -/
def pyStrCell : Cell → String
  | none => "nan"
  | some s => s

/-- Python `lambda x: str(x).lower()` applied to a cell. -/
def lowercaseCell (c : Cell) : Cell := some (pyLower (pyStrCell c))

/-- Source `converter` applied to a cell: on a non-string (`NaN`) cell `len(s)`
raises `TypeError`. -/
def converterCell : Cell → Except Unit Cell
  | none => .error ()
  | some s => .ok (some (converter s))

/-- Source `remove_punctuation` applied to a cell in the line 190 applymap:
on a non-string (`NaN`) cell, `x.translate(t)` raises `AttributeError`. -/
def removePunctCell : Cell → Except Unit Cell
  | none => .error ()
  | some s => .ok (some (remove_punctuation s))

/-- Pandas `df.fillna(" ", inplace=True)` per cell. -/
def fillnaCell (c : Cell) : Cell := some (c.getD " ")

/-- A pandas dataframe as a map from column name to column, `none` when the
column is absent (indexing it raises `KeyError`). -/
structure PyDataFrame where
  cols : String → Option (List Cell)

/-- The `Dataset` object of grading_utils.py (lines 121-134). -/
structure PyDataset where
  data_raw : PyDataFrame
  data : PyDataFrame
  prompt_col : String
  asr_col : String
  duration_col : String
  human_wcpm_col : String

/-- The column pipeline of `Dataset.preprocess_data` (lines 166-191) applied
to one column of the two-column copy `df`.  `g` abstracts the two
recomposition applymaps (lines 170-171), which call the external
`ast.literal_eval`; it may fail (`ValueError` on malformed input).  The
punctuation applymap (line 190) EXECUTES — so it can still raise
(`AttributeError` on a `NaN` cell) — but its result is never assigned,
mirrored below by binding it to `_`; `fillna` (line 191) runs
unconditionally on `col3`, not on the discarded result. -/
def processColumn (g : Cell → Except Unit Cell)
    (lowercase convert_num2words punctuation_free asr_string_recomposition : Bool)
    (col : List Cell) : Except Unit (List Cell) := do
  let col1 ← if asr_string_recomposition then col.mapM g else pure col
  let col2 := if lowercase then col1.map lowercaseCell else col1
  let col3 ← if convert_num2words then col2.mapM converterCell else pure col2
  let _ ← if punctuation_free then col3.mapM removePunctCell else pure col3
  pure (col3.map fillnaCell)

/-- Source `df = self.data[columns].copy()` followed by the pipeline: select the
prompt and transcript columns (`KeyError` if absent) and process both. -/
def processCols (g : Cell → Except Unit Cell)
    (lowercase convert_num2words punctuation_free asr_string_recomposition : Bool)
    (ds : PyDataset) : Except Unit (List Cell × List Cell) :=
  match ds.data.cols ds.prompt_col, ds.data.cols ds.asr_col with
  | some p0, some a0 => do
    let p ← processColumn g lowercase convert_num2words punctuation_free asr_string_recomposition p0
    let a ← processColumn g lowercase convert_num2words punctuation_free asr_string_recomposition a0
    pure (p, a)
  | _, _ => .error ()

/-- Pandas `self.data[columns] = df`: overwrite exactly the prompt and transcript
columns. -/
def updateCols (df : PyDataFrame) (pc : String) (p : List Cell)
    (ac : String) (a : List Cell) : PyDataFrame :=
  ⟨fun c => if c = ac then some a else if c = pc then some p else df.cols c⟩

/-- Source `Dataset.preprocess_data` (grading_utils.py lines 156-196) as a state
transformer: the returned dataset is the post-call `self`; with
`inplace=False` the method returns the processed columns and `self` is
untouched, with `inplace=True` it writes them back into `self.data`.  An
`Except.error` models an uncaught exception (the caller's `self` is then
unchanged, since the assignment on line 196 was never reached). -/
def preprocess_data (g : Cell → Except Unit Cell)
    (lowercase convert_num2words punctuation_free asr_string_recomposition inplace : Bool)
    (ds : PyDataset) : Except Unit (PyDataset × Option (List Cell × List Cell)) :=
  match processCols g lowercase convert_num2words punctuation_free asr_string_recomposition ds with
  | .error e => .error e
  | .ok (p, a) =>
    if inplace then
      .ok ({ ds with data := updateCols ds.data ds.prompt_col p ds.asr_col a }, none)
    else .ok (ds, some (p, a))

/-- Tag predicate: operations derived from the first (prompt) sequence. -/
def fromPrompt (w : String) : Bool := strFront w == ' ' || strFront w == '-'

/-- Tag predicate: operations derived from the second (transcript) sequence. -/
def fromTranscript (w : String) : Bool := strFront w == ' ' || strFront w == '+'

/-- Example dataframe for the `preprocess_data` frame-effect witness. -/
def dfEx : PyDataFrame :=
  ⟨fun c => if c = "prompt" then some [some "a"]
    else if c = "asr_transcript" then some [some "b"]
    else if c = "other" then some [some "x"] else none⟩

/-- Example dataset for the `preprocess_data` frame-effect witness. -/
def dsEx : PyDataset :=
  ⟨dfEx, dfEx, "prompt", "asr_transcript", "scored_duration", "human_wcpm"⟩

/-- Trivial recomposition function for the witness. -/
def gEx : Cell → Except Unit Cell := fun c => .ok c

theorem strFront_tagOp (c : Char) (w : String) : strFront (tagOp c w) = c := rfl

theorem splitSep_ne_nil (sep : Char) (l : List Char) : splitSep sep l ≠ [] := by
  induction l with
  | nil => simp [splitSep]
  | cons c cs ih =>
    simp only [splitSep]
    split
    · simp
    · split
      · simp
      · simp

theorem pySplit_ne_nil (s : String) (sep : Char) : pySplit s sep ≠ [] := by
  simp [pySplit, splitSep_ne_nil]

theorem pySplit_length_pos (s : String) (sep : Char) : 0 < (pySplit s sep).length :=
  List.length_pos.mpr (pySplit_ne_nil s sep)

theorem lcsLenF_nil_left (fuel : Nat) (b : List String) : lcsLenF fuel [] b = 0 := by
  cases fuel <;> rfl

theorem lcsLenF_single_of_not_mem (x : String) :
    ∀ (ys : List String) (fuel : Nat), x ∉ ys → ys.length + 1 ≤ fuel →
      lcsLenF fuel [x] ys = 0 := by
  intro ys
  induction ys with
  | nil =>
    intro fuel _ hfuel
    match fuel, hfuel with
    | f + 1, _ => rfl
  | cons y ys ih =>
    intro fuel hmem hfuel
    simp only [List.length_cons] at hfuel
    match fuel, hfuel with
    | f + 1, hf =>
      have hxy : x ≠ y := by
        intro h; exact hmem (h ▸ List.mem_cons_self y ys)
      simp only [lcsLenF, if_neg hxy]
      rw [lcsLenF_nil_left, ih f (fun h => hmem (List.mem_cons_of_mem y h)) (by omega)]
      simp

theorem lcsLen_single_of_not_mem (x : String) (ys : List String) (h : x ∉ ys) :
    lcsLen [x] ys = 0 := by
  apply lcsLenF_single_of_not_mem x ys _ h
  simp [List.length]
  omega

theorem lcsLenF_nil_right (fuel : Nat) (a : List String) : lcsLenF fuel a [] = 0 := by
  cases fuel <;> cases a <;> rfl

theorem lcsLen_nil_right (a : List String) : lcsLen a [] = 0 :=
  lcsLenF_nil_right _ _

theorem lcsLenF_single_right_of_not_mem (y : String) :
    ∀ (xs : List String) (fuel : Nat), y ∉ xs → xs.length + 1 ≤ fuel →
      lcsLenF fuel xs [y] = 0 := by
  intro xs
  induction xs with
  | nil =>
    intro fuel _ _
    exact lcsLenF_nil_left fuel [y]
  | cons x xs ih =>
    intro fuel hmem hfuel
    simp only [List.length_cons] at hfuel
    match fuel, hfuel with
    | f + 1, hf =>
      have hxy : x ≠ y := fun h => hmem (h ▸ List.mem_cons_self x xs)
      simp only [lcsLenF, if_neg hxy]
      rw [ih f (fun h => hmem (List.mem_cons_of_mem x h)) (by omega), lcsLenF_nil_right]
      simp

theorem lcsLen_single_right_of_not_mem (y : String) (xs : List String) (h : y ∉ xs) :
    lcsLen xs [y] = 0 := by
  apply lcsLenF_single_right_of_not_mem y xs _ h
  simp [List.length]

theorem differCompareF_self (T : List String) :
    ∀ (fuel : Nat), T.length + T.length ≤ fuel →
      differCompareF fuel T T = T.map (tagOp ' ') := by
  induction T with
  | nil => intro fuel _; cases fuel <;> rfl
  | cons x xs ih =>
    intro fuel hfuel
    simp only [List.length_cons] at hfuel
    match fuel, hfuel with
    | f + 1, hf =>
      simp only [differCompareF, List.map_cons, if_true]
      rw [ih f (by omega)]

theorem differCompareF_nil_left (ys : List String) :
    ∀ (fuel : Nat), ys.length ≤ fuel →
      differCompareF fuel [] ys = ys.map (tagOp '+') := by
  induction ys with
  | nil => intro fuel _; cases fuel <;> rfl
  | cons y ys ih =>
    intro fuel hfuel
    simp only [List.length_cons] at hfuel
    match fuel, hfuel with
    | f + 1, hf =>
      simp only [differCompareF, List.map_cons]
      rw [ih f (by omega)]
/-- Shape of the diff against an empty transcript string: the transcript
tokenizes to `[""]`, and (under this model's Delete-first tie-break) the diff
is the Delete run over the prompt's tokens followed by the Insert of the
empty token. -/
theorem differCompareF_empty_transcript :
    ∀ (A : List String) (fuel : Nat), (∀ x ∈ A, x ≠ "") → A.length + 1 ≤ fuel →
      differCompareF fuel A [""] = A.map (tagOp '-') ++ [tagOp '+' ""] := by
  intro A
  induction A with
  | nil =>
    intro fuel _ hfuel
    rw [differCompareF_nil_left [""] fuel (by simpa using hfuel)]
    rfl
  | cons x xs ih =>
    intro fuel hmem hfuel
    simp only [List.length_cons] at hfuel
    match fuel, hfuel with
    | f + 1, hf =>
      simp only [differCompareF]
      rw [if_neg (fun h => hmem x (List.mem_cons_self x xs) h)]
      rw [lcsLen_nil_right, lcsLen_single_right_of_not_mem ""
        xs (fun h => hmem "" (List.mem_cons_of_mem x h) rfl)]
      rw [if_pos (le_refl 0)]
      rw [ih f (fun u hu => hmem u (List.mem_cons_of_mem x hu)) (by omega)]
      simp

/-- A `dropWhile` over a list none of whose elements satisfy the predicate
is the identity. -/
theorem dropWhile_eq_self_of_forall_false (p : String → Bool) (L : List String)
    (h : ∀ x ∈ L, p x = false) : L.dropWhile p = L := by
  cases L with
  | nil => rfl
  | cons a t =>
    rw [List.dropWhile_cons, if_neg (by simp [h a (List.mem_cons_self a t)])]

theorem differCompareF_counts :
    ∀ (fuel : Nat) (a b : List String), a.length + b.length ≤ fuel →
      (differCompareF fuel a b).countP fromPrompt = a.length
        ∧ (differCompareF fuel a b).countP fromTranscript = b.length := by
  intro fuel
  induction fuel with
  | zero =>
    intro a b h
    cases a with
    | nil =>
      cases b with
      | nil => simp [differCompareF]
      | cons y ys => simp at h
    | cons x xs => simp at h
  | succ f ih =>
    intro a b h
    cases a with
    | nil =>
      cases b with
      | nil => simp [differCompareF]
      | cons y ys =>
        simp only [differCompareF, List.countP_cons]
        have := ih [] ys (by simp at h ⊢; omega)
        simp [fromPrompt, fromTranscript, strFront_tagOp, this.1, this.2]
    | cons x xs =>
      cases b with
      | nil =>
        simp only [differCompareF, List.countP_cons]
        have := ih xs [] (by simp at h ⊢; omega)
        simp [fromPrompt, fromTranscript, strFront_tagOp, this.1, this.2]
      | cons y ys =>
        simp only [differCompareF]
        split
        · have := ih xs ys (by simp at h ⊢; omega)
          simp [List.countP_cons, fromPrompt, fromTranscript, strFront_tagOp, this.1, this.2]
        · split
          · have := ih xs (y :: ys) (by simp at h ⊢; omega)
            simp [List.countP_cons, fromPrompt, fromTranscript, strFront_tagOp, this.1, this.2]
          · have := ih (x :: xs) ys (by simp at h ⊢; omega)
            simp [List.countP_cons, fromPrompt, fromTranscript, strFront_tagOp, this.1, this.2]

theorem differCompare_counts (a b : List String) :
    (differCompare a b).countP fromPrompt = a.length
      ∧ (differCompare a b).countP fromTranscript = b.length :=
  differCompareF_counts (a.length + b.length) a b (le_refl _)

theorem popTrailingAux_eq_dropWhile (c : Char) :
    ∀ (rev : List String), (∃ x ∈ rev, ¬ strFront x = c) →
      popTrailingAux c rev = some (rev.dropWhile (fun w => strFront w == c)) := by
  intro rev
  induction rev with
  | nil => rintro ⟨x, hx, -⟩; cases hx
  | cons x rest ih =>
    rintro ⟨y, hy, hyc⟩
    by_cases hx : strFront x = c
    · have hrest : ∃ z ∈ rest, ¬ strFront z = c := by
        rcases List.mem_cons.mp hy with rfl | hmem
        · exact absurd hx hyc
        · exact ⟨y, hmem, hyc⟩
      simp [popTrailingAux, hx, ih hrest, List.dropWhile_cons]
    · simp [popTrailingAux, hx, List.dropWhile_cons]

theorem dropWhile_head?_false (p : String → Bool) :
    ∀ (l : List String) (x : String), (l.dropWhile p).head? = some x → p x = false := by
  intro l
  induction l with
  | nil => intro x h; simp [List.dropWhile] at h
  | cons a l ih =>
    intro x h
    by_cases ha : p a
    · rw [List.dropWhile_cons, if_pos ha] at h
      exact ih x h
    · rw [List.dropWhile_cons, if_neg ha] at h
      simp only [List.head?_cons, Option.some.injEq] at h
      subst h
      exact Bool.not_eq_true _ ▸ Bool.of_not_eq_true ha

theorem dropWhile_append_all (p : String → Bool) :
    ∀ (l₁ l₂ : List String), (∀ x ∈ l₁, p x = true) →
      (l₁ ++ l₂).dropWhile p = l₂.dropWhile p := by
  intro l₁ l₂
  induction l₁ with
  | nil => intro _; simp
  | cons a l ih =>
    intro h
    rw [List.cons_append, List.dropWhile_cons, if_pos (h a (List.mem_cons_self a l))]
    exact ih (fun x hx => h x (List.mem_cons_of_mem a hx))
theorem errStep_counter (l : List String) (n : Nat) (st : ErrState) (i : Nat) :
    (errStep l n st i).counter
      = st.counter + (if strFront (l.getD i "") = ' ' then 1 else 0) := by
  cases st with
  | mk ct ad sb sk pw tw =>
    simp only [errStep]
    split_ifs <;> rfl

theorem errStep_add (l : List String) (n : Nat) (st : ErrState) (i : Nat) :
    (errStep l n st i).add
      = st.add + (if strFront (l.getD i "") = '+' ∧ (i : Int) < (n : Int) - 2 then 1 else 0) := by
  cases st with
  | mk ct ad sb sk pw tw =>
    simp only [errStep]
    split_ifs <;> simp_all

theorem errStep_sub (l : List String) (n : Nat) (st : ErrState) (i : Nat) :
    (errStep l n st i).sub
      = st.sub + (if strFront (l.getD i "") = '-' ∧ (i : Int) < (n : Int) - 2 then 1 else 0) := by
  cases st with
  | mk ct ad sb sk pw tw =>
    simp only [errStep]
    split_ifs <;> simp_all

theorem errStep_promptW (l : List String) (n : Nat) (st : ErrState) (i : Nat) :
    (errStep l n st i).promptW = st.promptW ++ (pairAt l n i).toList.map Prod.fst := by
  cases st with
  | mk ct ad sb sk pw tw =>
    simp only [errStep, pairAt]
    split_ifs <;> simp_all

theorem errStep_transcriptW (l : List String) (n : Nat) (st : ErrState) (i : Nat) :
    (errStep l n st i).transcriptW = st.transcriptW ++ (pairAt l n i).toList.map Prod.snd := by
  cases st with
  | mk ct ad sb sk pw tw =>
    simp only [errStep, pairAt]
    split_ifs <;> simp_all
theorem foldRange_counter (l : List String) (N : Nat) :
    ∀ (n : Nat) (st : ErrState),
      ((List.range n).foldl (errStep l N) st).counter
        = st.counter + (List.range n).countP (fun i => strFront (l.getD i "") == ' ') := by
  intro n
  induction n with
  | zero => intro st; simp
  | succ k ih =>
    intro st
    rw [List.range_succ, List.foldl_append, List.countP_append]
    simp only [List.foldl_cons, List.foldl_nil, List.countP_cons, List.countP_nil]
    rw [errStep_counter, ih]
    by_cases h : strFront (l.getD k "") = ' ' <;> simp [h] <;> omega

theorem foldRange_add (l : List String) (N : Nat) :
    ∀ (n : Nat) (st : ErrState),
      ((List.range n).foldl (errStep l N) st).add
        = st.add + (List.range n).countP
            (fun i => decide (strFront (l.getD i "") = '+' ∧ (i : Int) < (N : Int) - 2)) := by
  intro n
  induction n with
  | zero => intro st; simp
  | succ k ih =>
    intro st
    rw [List.range_succ, List.foldl_append, List.countP_append]
    simp only [List.foldl_cons, List.foldl_nil, List.countP_cons, List.countP_nil]
    rw [errStep_add, ih]
    by_cases h : strFront (l.getD k "") = '+' ∧ (k : Int) < (N : Int) - 2 <;> simp [h] <;> omega

theorem foldRange_sub (l : List String) (N : Nat) :
    ∀ (n : Nat) (st : ErrState),
      ((List.range n).foldl (errStep l N) st).sub
        = st.sub + (List.range n).countP
            (fun i => decide (strFront (l.getD i "") = '-' ∧ (i : Int) < (N : Int) - 2)) := by
  intro n
  induction n with
  | zero => intro st; simp
  | succ k ih =>
    intro st
    rw [List.range_succ, List.foldl_append, List.countP_append]
    simp only [List.foldl_cons, List.foldl_nil, List.countP_cons, List.countP_nil]
    rw [errStep_sub, ih]
    by_cases h : strFront (l.getD k "") = '-' ∧ (k : Int) < (N : Int) - 2 <;> simp [h] <;> omega

theorem foldRange_promptW (l : List String) (N : Nat) :
    ∀ (n : Nat) (st : ErrState),
      ((List.range n).foldl (errStep l N) st).promptW
        = st.promptW ++ ((List.range n).filterMap (pairAt l N)).map Prod.fst := by
  intro n
  induction n with
  | zero => intro st; simp
  | succ k ih =>
    intro st
    rw [List.range_succ, List.foldl_append, List.filterMap_append]
    simp only [List.foldl_cons, List.foldl_nil]
    rw [errStep_promptW, ih, List.map_append, List.append_assoc]
    cases h : pairAt l N k <;> simp [h, List.filterMap_cons]

theorem foldRange_transcriptW (l : List String) (N : Nat) :
    ∀ (n : Nat) (st : ErrState),
      ((List.range n).foldl (errStep l N) st).transcriptW
        = st.transcriptW ++ ((List.range n).filterMap (pairAt l N)).map Prod.snd := by
  intro n
  induction n with
  | zero => intro st; simp
  | succ k ih =>
    intro st
    rw [List.range_succ, List.foldl_append, List.filterMap_append]
    simp only [List.foldl_cons, List.foldl_nil]
    rw [errStep_transcriptW, ih, List.map_append, List.append_assoc]
    cases h : pairAt l N k <;> simp [h, List.filterMap_cons]

/-- Closed form of `get_errors_dict`: each counter is a positional count over
the list, and the substitution lists are exactly `substitutionPairsSpec`. -/
theorem get_errors_dict_eq (l : List String) :
    get_errors_dict l
      = ⟨(List.range l.length).countP (fun i => strFront (l.getD i "") == ' '),
         (List.range l.length).countP
           (fun i => decide (strFront (l.getD i "") = '+' ∧ (i : Int) < (l.length : Int) - 2)),
         (List.range l.length).countP
           (fun i => decide (strFront (l.getD i "") = '-' ∧ (i : Int) < (l.length : Int) - 2)),
         (substitutionPairsSpec l).length,
         ⟨(substitutionPairsSpec l).map Prod.fst, (substitutionPairsSpec l).map Prod.snd⟩⟩ := by
  simp only [get_errors_dict, substitutionPairsSpec]
  rw [foldRange_counter, foldRange_add, foldRange_sub, foldRange_promptW, foldRange_transcriptW]
  simp
theorem map_getD_range (l : List String) (d : String) :
    (List.range l.length).map (fun i => l.getD i d) = l := by
  induction l with
  | nil => rfl
  | cons x xs ih =>
    rw [List.length_cons, List.range_succ_eq_map, List.map_cons, List.map_map]
    simp only [List.getD_cons_zero, Function.comp_def, List.getD_cons_succ]
    rw [ih]

theorem countP_eq_countP_range (l : List String) (p : String → Bool) :
    l.countP p = (List.range l.length).countP (fun i => p (l.getD i "")) := by
  conv_lhs => rw [← map_getD_range l ""]
  rw [List.countP_map]
  rfl

/-- Partition of the classified positions: with well-formed operation tags,
correct + (classified) inserted + (classified) deleted + (unclassified
Insert/Delete positions in the final two slots) equals the number of
non-Annotation positions. -/
theorem classify_partition (l : List String)
    (hwf : ∀ w ∈ l, strFront w = ' ' ∨ strFront w = '+' ∨ strFront w = '-' ∨ strFront w = '?') :
    ∀ (I : List Nat), (∀ i ∈ I, i < l.length) →
      I.countP (fun i => strFront (l.getD i "") == ' ')
        + I.countP (fun i => decide (strFront (l.getD i "") = '+' ∧ (i : Int) < (l.length : Int) - 2))
        + I.countP (fun i => decide (strFront (l.getD i "") = '-' ∧ (i : Int) < (l.length : Int) - 2))
        + I.countP (fun i => decide ((strFront (l.getD i "") = '+' ∨ strFront (l.getD i "") = '-')
            ∧ ¬ (i : Int) < (l.length : Int) - 2))
      = I.countP (fun i => ! (strFront (l.getD i "") == '?')) := by
  intro I
  induction I with
  | nil => simp
  | cons i I ih =>
    intro hmem
    have hi : i < l.length := hmem i (List.mem_cons_self i I)
    have hIH := ih (fun j hj => hmem j (List.mem_cons_of_mem i hj))
    have hw : l.getD i "" ∈ l := by
      rw [List.getD_eq_getElem l "" hi]
      exact List.getElem_mem hi
    have hfront := hwf _ hw
    simp only [List.countP_cons]
    rw [List.getD_eq_getElem?_getD] at hfront
    by_cases hc : (i : Int) < (l.length : Int) - 2 <;>
      rcases hfront with h | h | h | h <;>
      simp [h, hc] at hIH ⊢ <;> omega
/-- Claim C1, counterexample: on the reachable trimmed operation list
`["- a", "+ b", "  c"]` (produced by `compare_text("a c", "b c")`), the code
returns correct=1, added=0, removed=1, replaced=1, so
inserted + deleted + 2*substituted + correct = 4, but the list has only 3
non-Annotation operations: the Delete member of the substitution pair is
counted both in `sub` and in `replaced`. -/
theorem c1_counterexample :
    compare_textO "a c" "b c" ' ' = some ["- a", "+ b", "  c"]
      ∧ get_errors_dict ["- a", "+ b", "  c"] = ⟨1, 0, 1, 1, ⟨["a"], ["b"]⟩⟩
      ∧ ¬ ((get_errors_dict ["- a", "+ b", "  c"]).add + (get_errors_dict ["- a", "+ b", "  c"]).sub
            + 2 * (get_errors_dict ["- a", "+ b", "  c"]).replaced
            + (get_errors_dict ["- a", "+ b", "  c"]).counter
          = (["- a", "+ b", "  c"] : List String).countP (fun w => ! (strFront w == '?'))) := by
  decide

/-- Claim C1, amended: for operation lists with well-formed tags, the counts
that do partition the list are: correct + inserted + deleted + (the
Insert/Delete operations in the final two positions, which the classifier
skips entirely) = number of non-Annotation operations.  Substitution pairs
are NOT excluded from the insert/delete counters, so the originally claimed
sum `inserted + deleted + 2*substituted + correct` exceeds the
non-Annotation count by exactly `2*substituted_count` MINUS the skipped
tail Insert/Delete operations; in subtraction-free form (the second
conjunct): claimed sum + skipped tail operations = non-Annotation count
+ `2*substituted_count`. -/
theorem c1_amended (l : List String)
    (hwf : ∀ w ∈ l, strFront w = ' ' ∨ strFront w = '+' ∨ strFront w = '-' ∨ strFront w = '?') :
    ((get_errors_dict l).counter + (get_errors_dict l).add + (get_errors_dict l).sub
        + (List.range l.length).countP
            (fun i => decide ((strFront (l.getD i "") = '+' ∨ strFront (l.getD i "") = '-')
              ∧ ¬ (i : Int) < (l.length : Int) - 2))
      = l.countP (fun w => ! (strFront w == '?')))
    ∧ ((get_errors_dict l).add + (get_errors_dict l).sub
          + 2 * (get_errors_dict l).replaced + (get_errors_dict l).counter
          + (List.range l.length).countP
              (fun i => decide ((strFront (l.getD i "") = '+' ∨ strFront (l.getD i "") = '-')
                ∧ ¬ (i : Int) < (l.length : Int) - 2))
        = l.countP (fun w => ! (strFront w == '?')) + 2 * (get_errors_dict l).replaced) := by
  have hpart : (get_errors_dict l).counter + (get_errors_dict l).add + (get_errors_dict l).sub
      + (List.range l.length).countP
          (fun i => decide ((strFront (l.getD i "") = '+' ∨ strFront (l.getD i "") = '-')
            ∧ ¬ (i : Int) < (l.length : Int) - 2))
    = l.countP (fun w => ! (strFront w == '?')) := by
    rw [get_errors_dict_eq]
    rw [countP_eq_countP_range l (fun w => ! (strFront w == '?'))]
    exact classify_partition l hwf (List.range l.length) (fun i hi => List.mem_range.mp hi)
  exact ⟨hpart, by omega⟩

/-- Witness for `c1_amended` at the concrete list `["- a", "  b"]`. -/
theorem c1_amended_witness :
    (∀ w ∈ (["- a", "  b"] : List String),
        strFront w = ' ' ∨ strFront w = '+' ∨ strFront w = '-' ∨ strFront w = '?')
      ∧ (((get_errors_dict ["- a", "  b"]).counter + (get_errors_dict ["- a", "  b"]).add
            + (get_errors_dict ["- a", "  b"]).sub
            + (List.range (["- a", "  b"] : List String).length).countP
                (fun i => decide ((strFront ((["- a", "  b"] : List String).getD i "") = '+'
                    ∨ strFront ((["- a", "  b"] : List String).getD i "") = '-')
                  ∧ ¬ (i : Int) < ((["- a", "  b"] : List String).length : Int) - 2))
          = (["- a", "  b"] : List String).countP (fun w => ! (strFront w == '?')))
        ∧ ((get_errors_dict ["- a", "  b"]).add + (get_errors_dict ["- a", "  b"]).sub
              + 2 * (get_errors_dict ["- a", "  b"]).replaced
              + (get_errors_dict ["- a", "  b"]).counter
              + (List.range (["- a", "  b"] : List String).length).countP
                  (fun i => decide ((strFront ((["- a", "  b"] : List String).getD i "") = '+'
                      ∨ strFront ((["- a", "  b"] : List String).getD i "") = '-')
                    ∧ ¬ (i : Int) < ((["- a", "  b"] : List String).length : Int) - 2))
            = (["- a", "  b"] : List String).countP (fun w => ! (strFront w == '?'))
              + 2 * (get_errors_dict ["- a", "  b"]).replaced)) :=
  ⟨by decide, c1_amended ["- a", "  b"] (by decide)⟩

/-- Claim C2, counterexample: on `["+ x", "- y", "  z"]` the Insert comes
first, and the recorded pair is `("x", "y")`: the `'+'`-tagged word `"x"`
(which difflib marks as present only in the second, transcript-side
sequence) is stored in the `prompt` slot, while the prompt-side word `"y"`
(from the `'- y'` Delete) is stored second — not prompt-word-first as
claimed. -/
theorem c2_counterexample :
    get_errors_dict ["+ x", "- y", "  z"] = ⟨1, 1, 0, 1, ⟨["x"], ["y"]⟩⟩
      ∧ strFront "+ x" = '+' ∧ strFront "- y" = '-'
      ∧ (get_errors_dict ["+ x", "- y", "  z"]).errors_dict.prompt ≠ ["y"] := by
  decide

/-- Claim C2, amended: the recorded substitution pairs are exactly
`substitutionPairsSpec`: each pair stores the word of the operation that
occurs EARLIER in the list first (tag stripped) and its looked-ahead partner
second, regardless of tags.  So the prompt-side word comes first only when
the Delete member precedes the Insert member; when the Insert comes first,
the transcript-side word lands in the `prompt` slot. -/
theorem c2_amended (l : List String) :
    (get_errors_dict l).errors_dict
        = ⟨(substitutionPairsSpec l).map Prod.fst, (substitutionPairsSpec l).map Prod.snd⟩
      ∧ (get_errors_dict l).replaced = (substitutionPairsSpec l).length := by
  rw [get_errors_dict_eq]
  exact ⟨rfl, rfl⟩

/-- Claim C3, failing input: `compare_text("a c d", "b c d")` yields
`["- a", "+ b", "  c", "  d"]`, whose only Insert and only Delete form one
substitution pair; the claim requires inserted_count = deleted_count = 0,
but the code returns added = removed = 1: the Delete is counted at its own
index before the pairing check, and because the skip branch ends in `pass`
instead of `continue`, the paired Insert is re-counted at the next index. -/
theorem c3_bug_eval :
    compare_textO "a c d" "b c d" ' ' = some ["- a", "+ b", "  c", "  d"]
      ∧ get_errors_dict ["- a", "+ b", "  c", "  d"] = ⟨2, 1, 1, 1, ⟨["a"], ["b"]⟩⟩
      ∧ (get_errors_dict ["- a", "+ b", "  c", "  d"]).add ≠ 0
      ∧ (get_errors_dict ["- a", "+ b", "  c", "  d"]).sub ≠ 0 := by
  decide

/-- Claim C4, failing input: `preprocess_data` with every normalization
option enabled leaves `"hello, world!!"` unchanged, because line 190
`df.applymap(lambda x: remove_punctuation(x, t))` discards its result.  The
helper itself does compute `"hello world"` as the claim describes, so the
claim matches the evident intent and the code drops the assignment. -/
theorem c4_bug_eval :
    preprocessCell true true true "hello, world!!" = "hello, world!!"
      ∧ remove_punctuation "hello, world!!" = "hello world"
      ∧ ("hello, world!!" : String) ≠ "hello world" := by
  decide

/-- Claim C5, failing input: in `converter` the year test is
`len(s) == 4` on the whole cell string, not on the digit run, so in
`"in 1997 i had 3 cats"` (length 20) the run `1997` is read as a cardinal,
`"one thousand, nine hundred and ninety-seven"`, not year-style; the year
branch fires only when the entire cell is the 4 digits, and even then
produces the hyphenated `"nineteen ninety-seven"`. -/
theorem c5_bug_eval :
    preprocessCell true true true "in 1997 i had 3 cats"
        = "in one thousand, nine hundred and ninety-seven i had three cats"
      ∧ converter "1997" = "nineteen ninety-seven"
      ∧ preprocessCell true true true "in 1997 i had 3 cats"
          ≠ "in nineteen ninety seven i had three cats" := by
  decide

/-- Claim C9: `avg_length_of_words` never divides by zero - Python `split`
always returns at least one field, the `n == 0` guard covers the impossible
remaining case, and the empty string yields average 0. -/
theorem c9_avg_length (s : String) (sep : Char) :
    0 < (pySplit s sep).length ∧ avg_length_of_words "" ' ' = 0 := by
  constructor
  · exact pySplit_length_pos s sep
  · norm_num [avg_length_of_words, pySplit, splitSep, String.length]
/-- Claim C6: whenever the raw diff list ends in an Insert or Delete
operation, `compare_text` returns the list with the maximal trailing run of
that same tag removed, and the returned list no longer ends in an operation
of that tag. -/
theorem c6_trailing_trim (a b : String) (op : String) (c : Char)
    (hlast : (differCompare (pySplit a ' ') (pySplit b ' ')).getLast? = some op)
    (hfront : strFront op = c)
    (hc : c = '+' ∨ c = '-') :
    compare_textO a b ' '
        = some (((differCompare (pySplit a ' ') (pySplit b ' ')).reverse.dropWhile
            (fun w => strFront w == c)).reverse)
      ∧ ∀ w, (((differCompare (pySplit a ' ') (pySplit b ' ')).reverse.dropWhile
            (fun w => strFront w == c)).reverse).getLast? = some w → ¬ strFront w = c := by
  have hex : ∃ x ∈ (differCompare (pySplit a ' ') (pySplit b ' ')).reverse, ¬ strFront x = c := by
    rcases hc with rfl | rfl
    · have hcount := (differCompare_counts (pySplit a ' ') (pySplit b ' ')).1
      have hpos : 0 < (differCompare (pySplit a ' ') (pySplit b ' ')).countP fromPrompt := by
        rw [hcount]; exact pySplit_length_pos a ' '
      obtain ⟨x, hx, hpx⟩ := List.countP_pos_iff.mp hpos
      refine ⟨x, List.mem_reverse.mpr hx, fun hfx => ?_⟩
      simp [fromPrompt, hfx] at hpx
    · have hcount := (differCompare_counts (pySplit a ' ') (pySplit b ' ')).2
      have hpos : 0 < (differCompare (pySplit a ' ') (pySplit b ' ')).countP fromTranscript := by
        rw [hcount]; exact pySplit_length_pos b ' '
      obtain ⟨x, hx, hpx⟩ := List.countP_pos_iff.mp hpos
      refine ⟨x, List.mem_reverse.mpr hx, fun hfx => ?_⟩
      simp [fromTranscript, hfx] at hpx
  have hcne : ¬ c = ' ' := by rcases hc with rfl | rfl <;> decide
  constructor
  · simp only [compare_textO, hlast]
    rw [hfront, if_neg hcne, popTrailingAux_eq_dropWhile c _ hex]
    rfl
  · intro w hw
    rw [List.getLast?_reverse] at hw
    have hfalse := dropWhile_head?_false _ _ _ hw
    intro hwc
    simp [hwc] at hfalse

/-- Witness for `c6_trailing_trim`: `compare_text("a", "a b c d e f")`
produces a raw list ending in five consecutive Insert operations, and all
five are removed, leaving only the Match. -/
theorem c6_witness :
    compare_textO "a" "a b c d e f" ' ' = some ["  a"]
      ∧ ∀ w, (["  a"] : List String).getLast? = some w → ¬ strFront w = '+' := by
  have h := c6_trailing_trim "a" "a b c d e f" "+ f" '+' (by decide) (by decide) (Or.inl rfl)
  have he : (((differCompare (pySplit "a" ' ') (pySplit "a b c d e f" ' ')).reverse.dropWhile
      (fun w => strFront w == '+')).reverse) = ["  a"] := by decide
  exact ⟨by rw [← he]; exact h.1, by rw [← he]; exact h.2⟩

/-- Claim C7, counterexample: with the empty string as prompt the raw diff
is NOT an all-Insert (nor all-Delete) list — the empty string tokenizes to
`[""]`, a one-token sequence whose token yields a `"- "` operation — and
the trimmed result is the nonempty `["- "]`, not an empty list. -/
theorem c7_counterexample :
    differCompare (pySplit "" ' ') (pySplit "hello world" ' ') = ["- ", "+ hello", "+ world"]
      ∧ ¬ ((∀ w ∈ (["- ", "+ hello", "+ world"] : List String), strFront w = '+')
            ∨ (∀ w ∈ (["- ", "+ hello", "+ world"] : List String), strFront w = '-'))
      ∧ compare_textO "" "hello world" ' ' = some ["- "]
      ∧ (["- "] : List String) ≠ [] := by
  decide

/-- Claim C7, amended: an empty string input on EITHER side never makes the
aligner raise, and the trimmed result is never empty.  An empty string
splits into the one-token sequence `[""]`, not an empty token sequence.
With an empty prompt the diff is that token's Delete followed by the Insert
run; the end-trim removes the Inserts and the returned list is exactly
`["- "]`, whose classification yields all-zero counts.  With an empty
transcript the diff consists of the prompt tokens' Deletes and the empty
token's single Insert (their relative order is the diff's tie-break, which
the spec leaves arbitrary-but-deterministic); after trimming, some nonempty
list is returned and its classification yields correct_count = 0.
Hypotheses: the empty token does not occur among the nonempty side's
tokens. -/
theorem c7_amended (a b : String) (ha : "" ∉ pySplit a ' ') (hb : "" ∉ pySplit b ' ') :
    (compare_textO "" b ' ' = some ["- "]
        ∧ get_errors_dict ["- "] = ⟨0, 0, 0, 0, ⟨[], []⟩⟩
        ∧ (["- "] : List String) ≠ [])
      ∧ (∃ l, compare_textO a "" ' ' = some l ∧ l ≠ []
          ∧ (get_errors_dict l).counter = 0) := by
  obtain ⟨t, ts, hts⟩ : ∃ t ts, pySplit b ' ' = t :: ts := by
    cases h : pySplit b ' ' with
    | nil => exact absurd h (pySplit_ne_nil b ' ')
    | cons t ts => exact ⟨t, ts, rfl⟩
  rw [hts] at hb
  have hmem : ∀ x ∈ t :: ts, x ≠ "" := fun x hx h' => hb (h' ▸ hx)
  have hdiff : differCompare [""] (t :: ts) = tagOp '-' "" :: (t :: ts).map (tagOp '+') := by
    unfold differCompare
    have hlen : ([""] : List String).length + (t :: ts).length = (ts.length + 1) + 1 := by
      simp only [List.length_cons, List.length_nil]
      omega
    rw [hlen]
    simp only [differCompareF]
    rw [if_neg (fun h => hmem t (List.mem_cons_self t ts) h.symm)]
    have h1 : lcsLen [""] ts = 0 :=
      lcsLen_single_of_not_mem "" ts (fun h => hmem "" (List.mem_cons_of_mem t h) rfl)
    have h2 : lcsLen [] (t :: ts) = 0 := lcsLenF_nil_left _ _
    rw [h1, h2, if_pos (le_refl 0)]
    rw [differCompareF_nil_left ts ts.length (le_refl ts.length)]
    simp
  refine ⟨⟨?_, by decide, by decide⟩, ?_⟩
  · simp only [compare_textO]
    have hsplit : pySplit "" ' ' = [""] := rfl
    rw [hsplit, hts, hdiff, List.map_cons, List.getLast?_cons_cons]
    have hne2 : tagOp '+' t :: ts.map (tagOp '+') ≠ [] := List.cons_ne_nil _ _
    rw [List.getLast?_eq_getLast _ hne2]
    have hwf : strFront ((tagOp '+' t :: ts.map (tagOp '+')).getLast hne2) = '+' := by
      rcases List.mem_cons.mp (List.getLast_mem hne2) with h | h
      · rw [h, strFront_tagOp]
      · obtain ⟨u, -, hu⟩ := List.mem_map.mp h
        rw [← hu, strFront_tagOp]
    simp only [hwf]
    rw [if_neg (by decide : ¬ ('+' : Char) = ' ')]
    have hex : ∃ x ∈ (tagOp '-' "" :: (tagOp '+' t :: ts.map (tagOp '+'))).reverse,
        ¬ strFront x = '+' := by
      refine ⟨tagOp '-' "", List.mem_reverse.mpr (List.mem_cons_self _ _), ?_⟩
      rw [strFront_tagOp]; decide
    rw [popTrailingAux_eq_dropWhile '+' _ hex]
    rw [List.reverse_cons, List.reverse_cons]
    have hall : ∀ x ∈ (ts.map (tagOp '+')).reverse ++ [tagOp '+' t],
        (fun w => strFront w == '+') x = true := by
      intro x hx
      rcases List.mem_append.mp hx with h | h
      · obtain ⟨u, -, hu⟩ := List.mem_map.mp (List.mem_reverse.mp h)
        rw [← hu]; simp [strFront_tagOp]
      · rcases List.mem_singleton.mp h with rfl
        simp [strFront_tagOp]
    rw [dropWhile_append_all _ _ _ hall]
    have hlastfalse : (strFront (tagOp '-' "") == '+') = false := by decide
    simp only [List.dropWhile_cons, hlastfalse, Bool.false_eq_true, if_false]
    rfl
  · -- empty transcript side
    obtain ⟨u, us, hus⟩ : ∃ u us, pySplit a ' ' = u :: us := by
      cases h : pySplit a ' ' with
      | nil => exact absurd h (pySplit_ne_nil a ' ')
      | cons u us => exact ⟨u, us, rfl⟩
    rw [hus] at ha
    have hmemA : ∀ x ∈ u :: us, x ≠ "" := fun x hx h' => ha (h' ▸ hx)
    have hdiffA : differCompare (u :: us) [""]
        = (u :: us).map (tagOp '-') ++ [tagOp '+' ""] := by
      unfold differCompare
      exact differCompareF_empty_transcript (u :: us) _ hmemA (by simp)
    refine ⟨(u :: us).map (tagOp '-'), ?_, by simp, ?_⟩
    · simp only [compare_textO]
      have hsplit : pySplit "" ' ' = [""] := rfl
      rw [hsplit, hus, hdiffA, List.getLast?_concat]
      simp only [strFront_tagOp]
      rw [if_neg (by decide : ¬ ('+' : Char) = ' ')]
      have hex : ∃ x ∈ ((u :: us).map (tagOp '-') ++ [tagOp '+' ""]).reverse,
          ¬ strFront x = '+' := by
        refine ⟨tagOp '-' u, List.mem_reverse.mpr ?_, ?_⟩
        · exact List.mem_append_left _ (List.mem_map.mpr ⟨u, List.mem_cons_self u us, rfl⟩)
        · rw [strFront_tagOp]; decide
      rw [popTrailingAux_eq_dropWhile '+' _ hex]
      have hrev : ((u :: us).map (tagOp '-') ++ [tagOp '+' ""]).reverse
          = tagOp '+' "" :: ((u :: us).map (tagOp '-')).reverse := by
        rw [List.reverse_append]
        rfl
      rw [hrev, List.dropWhile_cons, if_pos (by simp [strFront_tagOp])]
      rw [dropWhile_eq_self_of_forall_false _ _ (by
        intro x hx
        obtain ⟨v, -, hv⟩ := List.mem_map.mp (List.mem_reverse.mp hx)
        rw [← hv]
        simp [strFront_tagOp])]
      simp
    · rw [get_errors_dict_eq]
      apply List.countP_eq_zero.mpr
      intro i hi
      have hilt := List.mem_range.mp hi
      rw [List.getD_eq_getElem _ _ hilt, List.getElem_map]
      simp [strFront_tagOp]

/-- Witness for `c7_amended` at the concrete prompt `"x y"` and transcript
`"hello"`. -/
theorem c7_amended_witness :
    ((compare_textO "" "hello" ' ' = some ["- "]
        ∧ get_errors_dict ["- "] = ⟨0, 0, 0, 0, ⟨[], []⟩⟩
        ∧ (["- "] : List String) ≠ [])
      ∧ (∃ l, compare_textO "x y" "" ' ' = some l ∧ l ≠ []
          ∧ (get_errors_dict l).counter = 0)) :=
  c7_amended "x y" "hello" (by decide) (by decide)

/-- Claim C8: aligning any string against itself yields the all-Match
operation list (nothing is trimmed), and its classification gives
correct_count = number of tokens with zero insertions, deletions and
substitutions. -/
theorem c8_identity (s : String) :
    compare_textO s s ' ' = some ((pySplit s ' ').map (tagOp ' '))
      ∧ get_errors_dict ((pySplit s ' ').map (tagOp ' '))
          = ⟨(pySplit s ' ').length, 0, 0, 0, ⟨[], []⟩⟩ := by
  have hdl : differCompare (pySplit s ' ') (pySplit s ' ') = (pySplit s ' ').map (tagOp ' ') :=
    differCompareF_self _ _ (le_refl _)
  have hfrontD : ∀ i, i < ((pySplit s ' ').map (tagOp ' ')).length →
      strFront (((pySplit s ' ').map (tagOp ' ')).getD i "") = ' ' := by
    intro i hi
    rw [List.getD_eq_getElem _ _ hi, List.getElem_map]
    exact strFront_tagOp _ _
  constructor
  · have hne : (pySplit s ' ').map (tagOp ' ') ≠ [] := by
      simp [pySplit_ne_nil]
    simp only [compare_textO, hdl]
    rw [List.getLast?_eq_getLast _ hne]
    have hwf : strFront (((pySplit s ' ').map (tagOp ' ')).getLast hne) = ' ' := by
      obtain ⟨u, -, hu⟩ := List.mem_map.mp (List.getLast_mem hne)
      rw [← hu, strFront_tagOp]
    simp only [hwf]
    simp
  · rw [get_errors_dict_eq]
    simp only [ErrResult.mk.injEq, ErrorsDict.mk.injEq]
    have hpairs : substitutionPairsSpec ((pySplit s ' ').map (tagOp ' ')) = [] := by
      apply List.filterMap_eq_nil_iff.mpr
      intro i hi
      have hfi := hfrontD i (List.mem_range.mp hi)
      simp only [pairAt]
      rw [if_pos hfi]
    refine ⟨?_, ?_, ?_, ?_, ?_, ?_⟩
    · have hall : ∀ i ∈ List.range ((pySplit s ' ').map (tagOp ' ')).length,
          (fun i => strFront (((pySplit s ' ').map (tagOp ' ')).getD i "") == ' ') i = true := by
        intro i hi
        simp only [hfrontD i (List.mem_range.mp hi)]
        decide
      rw [List.countP_eq_length.mpr hall, List.length_range, List.length_map]
    · apply List.countP_eq_zero.mpr
      intro i hi
      simp only [decide_eq_true_eq, not_and]
      intro h1
      rw [hfrontD i (List.mem_range.mp hi)] at h1
      exact absurd h1 (by decide)
    · apply List.countP_eq_zero.mpr
      intro i hi
      simp only [decide_eq_true_eq, not_and]
      intro h1
      rw [hfrontD i (List.mem_range.mp hi)] at h1
      exact absurd h1 (by decide)
    · rw [hpairs]; rfl
    · rw [hpairs]; rfl
    · rw [hpairs]; rfl
/-- Claim C10: `preprocess_data` with `inplace=False` leaves the dataset
untouched and returns the processed columns (errors propagate unchanged);
with `inplace=True` it succeeds exactly when the column pipeline does, and
then overwrites only the prompt column and the transcript column, leaving
every other column of `self.data` as it was. -/
theorem c10_frame (g : Cell → Except Unit Cell) (lc cv pf rc : Bool) (ds : PyDataset) :
    preprocess_data g lc cv pf rc false ds
        = (processCols g lc cv pf rc ds).map (fun pa => (ds, some pa))
      ∧ ∀ p a, processCols g lc cv pf rc ds = .ok (p, a) →
          preprocess_data g lc cv pf rc true ds
              = .ok ({ ds with data := updateCols ds.data ds.prompt_col p ds.asr_col a }, none)
            ∧ (∀ col, col ≠ ds.prompt_col → col ≠ ds.asr_col →
                (updateCols ds.data ds.prompt_col p ds.asr_col a).cols col = ds.data.cols col)
            ∧ (updateCols ds.data ds.prompt_col p ds.asr_col a).cols ds.asr_col = some a
            ∧ (ds.prompt_col ≠ ds.asr_col →
                (updateCols ds.data ds.prompt_col p ds.asr_col a).cols ds.prompt_col = some p) := by
  constructor
  · cases h : processCols g lc cv pf rc ds with
    | error e => simp [preprocess_data, h, Except.map]
    | ok pa =>
      obtain ⟨p, a⟩ := pa
      simp [preprocess_data, h, Except.map]
  · intro p a h
    refine ⟨?_, ?_, ?_, ?_⟩
    · simp [preprocess_data, h]
    · intro col h1 h2
      simp [updateCols, h1, h2]
    · simp [updateCols]
    · intro hne
      simp [updateCols, hne]

/-- Witness for `c10_frame` on a concrete three-column dataset with all
normalization options (except recomposition) enabled. -/
theorem c10_frame_witness :
    preprocess_data gEx true true true false false dsEx
        = .ok (dsEx, some ([some "a"], [some "b"]))
      ∧ preprocess_data gEx true true true false true dsEx
          = .ok ({ dsEx with
              data := updateCols dsEx.data dsEx.prompt_col [some "a"] dsEx.asr_col [some "b"] },
            none)
      ∧ (updateCols dsEx.data dsEx.prompt_col [some "a"] dsEx.asr_col [some "b"]).cols "other"
          = dsEx.data.cols "other" := by
  have h := c10_frame gEx true true true false dsEx
  have hok : processCols gEx true true true false dsEx = .ok ([some "a"], [some "b"]) := by rfl
  have h2 := h.2 [some "a"] [some "b"] hok
  refine ⟨?_, h2.1, h2.2.1 "other" (by decide) (by decide)⟩
  rw [h.1, hok]
  rfl

end LiteracyScore
